import Mathlib

/-!
Verification of the `pbn` library (Programming by Navigation, `src/lib.rs`).

The Rust library defines four capability traits — `Timer`, `Step`,
`ValidityChecker`, `StepProvider` — two provider combinators
(`CompoundProvider`, `FallbackProvider`) and a session `Controller`.
This file gives a shallow embedding of those components and proves the
specification's contracts about them.

Modelling conventions:
* expressions are an arbitrary type `α`; Rust's `Clone` duplication is
  implicit in Lean's pure values;
* `Result<V, E>` is `Except ε V`; a Rust panic (`unwrap` failure) is
  modelled by the operation returning `none`;
* a boxed `dyn StepProvider` value is a `DynProvider`: an internal state
  (`st : σ`) together with its `provide` method, which consumes the state
  and returns the new state — this models `fn provide(&mut self, ...)`.
  Querying a child is thus visible as the replacement of its state, so
  "child j was never queried" is expressed as "child j is unchanged".
-/

set_option autoImplicit false

namespace PBN

variable {ε σ α : Type}

/-- Embedding of the `Timer` trait: `tick(&self) -> Result<(), EarlyCutoff>`.
The cutoff type `ε` is the trait's associated `EarlyCutoff` type. -/
structure Timer (ε : Type) where
  tick : Except ε Unit

/-- Embedding of the `Step` trait for expression type `α`:
`fn apply(&self, e: &Exp) -> Option<Exp>`. A step value is determined by
its `apply` behaviour. -/
structure Step (α : Type) where
  apply : α → Option α

/-- Embedding of the `ValidityChecker` trait:
`fn check(&self, e: &Exp) -> bool`. -/
structure ValidityChecker (α : Type) where
  check : α → Bool

/-- Embedding of a boxed `dyn StepProvider<T, Step = S>` with `S::Exp = α`:
a mutable internal state `st : σ` together with the `provide` method body
`provideFn`, which maps the current state, the timer and the working
expression to a result and the successor state (modelling `&mut self`). -/
structure DynProvider (ε σ α : Type) where
  st : σ
  provideFn : σ → Timer ε → α → Except ε (List (Step α)) × σ

/-- Calling `provide` on a boxed provider: runs the method body on the
current state and repackages the mutated provider. -/
def DynProvider.provide (p : DynProvider ε σ α) (timer : Timer ε) (e : α) :
    Except ε (List (Step α)) × DynProvider ε σ α :=
  match p.provideFn p.st timer e with
  | (r, st') => (r, { p with st := st' })

/-- The provider as mutated by one `provide` call (its successor state). -/
def DynProvider.afterProvide (p : DynProvider ε σ α) (timer : Timer ε) (e : α) :
    DynProvider ε σ α :=
  { p with st := (p.provideFn p.st timer e).2 }

/-- The result (`Ok` list or cutoff) a provider returns when queried now. -/
def childResult (timer : Timer ε) (e : α) (p : DynProvider ε σ α) :
    Except ε (List (Step α)) :=
  (p.provideFn p.st timer e).1

/-- The step list a provider returns when queried now (empty on cutoff). -/
def childSteps (timer : Timer ε) (e : α) (p : DynProvider ε σ α) : List (Step α) :=
  match childResult timer e p with
  | Except.ok steps => steps
  | Except.error _ => []

/-- Embedding of `CompoundProvider`: owns an ordered list of child
providers. -/
structure CompoundProvider (ε σ α : Type) where
  providers : List (DynProvider ε σ α)

/-- `CompoundProvider::new`. -/
def CompoundProvider.new (providers : List (DynProvider ε σ α)) :
    CompoundProvider ε σ α :=
  { providers := providers }

/-- The loop body of `CompoundProvider::provide`:
`for p in &mut self.providers { steps.extend(p.provide(timer, e)?); }`.
On a child's cutoff the `?` operator returns immediately: children already
queried keep their mutated state, later children are left untouched. -/
def compoundLoop (timer : Timer ε) (e : α) :
    List (DynProvider ε σ α) → Except ε (List (Step α)) × List (DynProvider ε σ α)
  | [] => (Except.ok [], [])
  | p :: ps =>
    match p.provideFn p.st timer e with
    | (Except.error err, st') => (Except.error err, { p with st := st' } :: ps)
    | (Except.ok steps, st') =>
      match compoundLoop timer e ps with
      | (Except.error err, ps') => (Except.error err, { p with st := st' } :: ps')
      | (Except.ok rest, ps') => (Except.ok (steps ++ rest), { p with st := st' } :: ps')

/-- `CompoundProvider::provide` (the combinator is itself a provider, so it
returns its mutated self alongside the result). -/
def CompoundProvider.provide (cp : CompoundProvider ε σ α) (timer : Timer ε) (e : α) :
    Except ε (List (Step α)) × CompoundProvider ε σ α :=
  match compoundLoop timer e cp.providers with
  | (r, ps') => (r, { providers := ps' })

/-- Embedding of `FallbackProvider`: owns an ordered list of child
providers. -/
structure FallbackProvider (ε σ α : Type) where
  providers : List (DynProvider ε σ α)

/-- `FallbackProvider::new`. -/
def FallbackProvider.new (providers : List (DynProvider ε σ α)) :
    FallbackProvider ε σ α :=
  { providers := providers }

/-- The loop body of `FallbackProvider::provide`: query children in order,
return the first nonempty `Ok` list (leaving later children unqueried),
propagate the first cutoff, and return `Ok []` if every child was empty. -/
def fallbackLoop (timer : Timer ε) (e : α) :
    List (DynProvider ε σ α) → Except ε (List (Step α)) × List (DynProvider ε σ α)
  | [] => (Except.ok [], [])
  | p :: ps =>
    match p.provideFn p.st timer e with
    | (Except.error err, st') => (Except.error err, { p with st := st' } :: ps)
    | (Except.ok steps, st') =>
      if steps.isEmpty then
        match fallbackLoop timer e ps with
        | (r, ps') => (r, { p with st := st' } :: ps')
      else
        (Except.ok steps, { p with st := st' } :: ps)

/-- `FallbackProvider::provide`. -/
def FallbackProvider.provide (fp : FallbackProvider ε σ α) (timer : Timer ε) (e : α) :
    Except ε (List (Step α)) × FallbackProvider ε σ α :=
  match fallbackLoop timer e fp.providers with
  | (r, ps') => (r, { providers := ps' })

/-- Embedding of the `Controller` struct: timer, (boxed) provider, (boxed)
checker, current working expression `state`, and optional history stack
(most-recent-last, matching `Vec` push/pop). -/
structure Controller (ε σ α : Type) where
  timer : Timer ε
  provider : DynProvider ε σ α
  checker : ValidityChecker α
  state : α
  history : Option (List α)

/-- `Controller::new`: history is `Some(vec![])` iff `save_history`. -/
def Controller.new (timer : Timer ε) (provider : DynProvider ε σ α)
    (checker : ValidityChecker α) (start : α) (save_history : Bool) :
    Controller ε σ α :=
  { timer := timer
    provider := provider
    checker := checker
    state := start
    history := if save_history then some [] else none }

/-- `Controller::provide`: delegates to the stored provider with the stored
timer and current expression; only the provider's internal state changes. -/
def Controller.provide (c : Controller ε σ α) :
    Except ε (List (Step α)) × Controller ε σ α :=
  match c.provider.provide c.timer c.state with
  | (r, p') => (r, { c with provider := p' })

/-- The first half of `Controller::decide`: the `match &mut self.history`
statement, which pushes a clone of the current expression onto the history
stack when history is enabled. In the Rust code this runs *before* the
`unwrap`, so this is the controller's state at the moment `decide` panics
on an inapplicable step. -/
def Controller.pushHistory (c : Controller ε σ α) : Controller ε σ α :=
  { c with history :=
      match c.history with
      | none => none
      | some his => some (his ++ [c.state]) }

/-- `Controller::decide`: push onto history (if enabled), then
`self.state = step.apply(&self.state).unwrap()`. The `unwrap` panic on an
inapplicable step is modelled by returning `none`. -/
def Controller.decide (c : Controller ε σ α) (step : Step α) :
    Option (Controller ε σ α) :=
  match step.apply c.state with
  | none => none
  | some e' => some { c.pushHistory with state := e' }

/-- `Controller::working_expression`. -/
def Controller.working_expression (c : Controller ε σ α) : α :=
  c.state

/-- `Controller::valid`: `self.checker.check(&self.state)`. -/
def Controller.valid (c : Controller ε σ α) : Bool :=
  c.checker.check c.state

/-- `Controller::can_undo`: false when history is disabled, otherwise
whether the history stack is nonempty. -/
def Controller.can_undo (c : Controller ε σ α) : Bool :=
  match c.history with
  | none => false
  | some xs => !xs.isEmpty

/-- `Controller::undo`:
`self.state = self.history.as_mut().unwrap().pop().unwrap()`. Both panics
(history disabled; history empty) are modelled by `none`. `Vec::pop`
removes the most-recent (last) entry. -/
def Controller.undo (c : Controller ε σ α) : Option (Controller ε σ α) :=
  match c.history with
  | none => none
  | some his =>
    match his.getLast? with
    | none => none
    | some last => some { c with state := last, history := some his.dropLast }

/-- One action of the interactive session driven through the controller's
mutating public surface. (`working_expression`, `valid` and `can_undo`
take `&self` and cannot change the controller, so they need no action.) -/
inductive Act (α : Type) where
  | decide (step : Step α)
  | undo
  | provide

/-- Run one session action; `none` models a panic of `decide` or `undo`. -/
def Controller.runAct (c : Controller ε σ α) : Act α → Option (Controller ε σ α)
  | Act.decide step => c.decide step
  | Act.undo => c.undo
  | Act.provide => some (c.provide).2

/-- Run a list of session actions in order. Reachable controller states
are exactly the `some` results of `runTrace` from a `Controller.new`. -/
def Controller.runTrace (c : Controller ε σ α) :
    List (Act α) → Option (Controller ε σ α)
  | [] => some c
  | a :: tr =>
    match c.runAct a with
    | none => none
    | some c' => c'.runTrace tr

/-- Modelled from the spec: "the sequence of expressions that existed
immediately before each decision made so far, oldest first", reading
"each decision made so far" as every `decide` performed on the trace
(undone or not). Used to test the literal form of the history invariant. -/
def Controller.preExpsAll (c : Controller ε σ α) :
    List (Act α) → Option (List α)
  | [] => some []
  | a :: tr =>
    match c.runAct a with
    | none => none
    | some c' =>
      match c'.preExpsAll tr with
      | none => none
      | some l =>
        match a with
        | Act.decide _ => some (c.state :: l)
        | _ => some l

/-- Modelled from the spec: the pre-decision expressions of the decisions
currently in effect, oldest first — a `decide` records the expression it
acted on, an `undo` revokes the most recent decision still in effect. -/
def Controller.preExpsEff (c : Controller ε σ α) (acc : List α) :
    List (Act α) → Option (List α)
  | [] => some acc
  | a :: tr =>
    match c.runAct a with
    | none => none
    | some c' =>
      match a with
      | Act.decide _ => c'.preExpsEff (acc ++ [c.state]) tr
      | Act.undo => c'.preExpsEff acc.dropLast tr
      | Act.provide => c'.preExpsEff acc tr

/-! Concrete instances used to exercise the definitions. -/

/-- A trivial timer that never cuts off. -/
def unitTimer : Timer Unit := ⟨Except.ok ()⟩

/-- A provider over integer expressions that always returns no steps. -/
def emptyIntProvider : DynProvider Unit Unit Int :=
  ⟨(), fun st _ _ => (Except.ok [], st)⟩

/-- A checker that accepts every integer expression. -/
def alwaysTrueChecker : ValidityChecker Int := ⟨fun _ => true⟩

/-- The step that adds 1 to an integer expression (always applicable). -/
def addOneStep : Step Int := ⟨fun n => some (n + 1)⟩

/-- A step that is applicable to no expression. -/
def failingStep : Step Int := ⟨fun _ => none⟩

/-- The controller of the spec's concrete scenario: integer expression
starting at 0, always-true checker, history saving enabled. -/
def intController : Controller Unit Unit Int :=
  Controller.new unitTimer emptyIntProvider alwaysTrueChecker 0 true

/-- The same controller constructed with `save_history = false`. -/
def intControllerNoHist : Controller Unit Unit Int :=
  Controller.new unitTimer emptyIntProvider alwaysTrueChecker 0 false

/-- `intController` after one successful `decide addOneStep`. -/
def intCtrlAfterDecide : Controller Unit Unit Int :=
  { intController with state := 1, history := some [0] }

/-- A step on natural-number expressions (adds 1). -/
def natStepA : Step Nat := ⟨fun n => some (n + 1)⟩

/-- A second step on natural-number expressions (adds 2). -/
def natStepB : Step Nat := ⟨fun n => some (n + 2)⟩

/-- A child provider that always returns the fixed list `L` and counts in
its state how many times it has been queried. -/
def listChild (L : List (Step Nat)) : DynProvider Unit Nat Nat :=
  ⟨0, fun calls _ _ => (Except.ok L, calls + 1)⟩

/-- A child provider that always signals cutoff, counting its queries. -/
def cutoffChild : DynProvider Unit Nat Nat :=
  ⟨0, fun calls _ _ => (Except.error (), calls + 1)⟩

/-- Claim C1: if `step.apply` on the working expression yields `some e'`,
then `decide step` succeeds, the new working expression is `e'`, and, when
history is enabled, a duplicate of the pre-decision expression has been
pushed onto the history stack (history is untouched when disabled). -/
theorem decide_applies_step (c : Controller ε σ α) (step : Step α) (e' : α)
    (h : step.apply c.state = some e') :
    ∃ c', c.decide step = some c' ∧ c'.working_expression = e' ∧
      c'.history = c.history.map (fun his => his ++ [c.state]) := by
  refine ⟨{ c.pushHistory with state := e' }, ?_, rfl, ?_⟩
  · simp [Controller.decide, h]
  · cases hh : c.history <;> simp [Controller.pushHistory, hh]

/-- Witness for C1: the add-one step applied on the concrete integer
controller at expression 0. -/
theorem decide_applies_step_witness :
    addOneStep.apply intController.state = some 1 ∧
    ∃ c', intController.decide addOneStep = some c' ∧
      c'.working_expression = 1 ∧
      c'.history = intController.history.map
        (fun his => his ++ [intController.state]) :=
  ⟨rfl, decide_applies_step intController addOneStep 1 rfl⟩

/-- Claim C8: `valid()` returns exactly `checker.check(working_expression())`,
and a `provide()` call leaves the working expression and the history stack
unchanged. (`valid()` takes the controller immutably in the embedding, so
it cannot change the controller at all.) -/
theorem valid_checks_current_and_provide_is_frame (c : Controller ε σ α) :
    c.valid = c.checker.check c.working_expression ∧
    (c.provide).2.working_expression = c.working_expression ∧
    (c.provide).2.history = c.history :=
  ⟨rfl, rfl, rfl⟩

/-- Claim C9: with history enabled, `decide` on an inapplicable step
panics (returns `none`), but the history push has already happened: at
panic time the controller's history is the old history with a duplicate of
the current expression appended, even though no decision took effect. -/
theorem decide_pushes_history_before_panicking (c : Controller ε σ α)
    (step : Step α) (his : List α) (hh : c.history = some his)
    (ha : step.apply c.state = none) :
    c.decide step = none ∧
    c.pushHistory.history = some (his ++ [c.state]) := by
  constructor
  · simp [Controller.decide, ha]
  · simp [Controller.pushHistory, hh]

/-- Witness for C9: the always-failing step on the concrete integer
controller whose (enabled) history is empty. -/
theorem decide_pushes_history_before_panicking_witness :
    intController.history = some [] ∧
    failingStep.apply intController.state = none ∧
    (intController.decide failingStep = none ∧
     intController.pushHistory.history = some ([] ++ [intController.state])) :=
  ⟨rfl, rfl,
    decide_pushes_history_before_panicking intController failingStep [] rfl rfl⟩

/-- Claim C10: both combinators built from an empty child list return
`Ok` with an empty step list on every timer and expression (and hence
never signal cutoff), leaving the (empty) child list unchanged. -/
theorem empty_combinators_provide_ok (timer : Timer ε) (e : α) :
    (CompoundProvider.new ([] : List (DynProvider ε σ α))).provide timer e =
      (Except.ok [], CompoundProvider.new []) ∧
    (FallbackProvider.new ([] : List (DynProvider ε σ α))).provide timer e =
      (Except.ok [], FallbackProvider.new []) :=
  ⟨rfl, rfl⟩

/-- Loop lemma: when every child in the list answers `Ok`, the compound
loop returns the concatenation of all answers and every child is queried
(replaced by its successor state). -/
theorem compoundLoop_all_ok (timer : Timer ε) (e : α) :
    ∀ ps : List (DynProvider ε σ α),
      (∀ p ∈ ps, ∃ L, childResult timer e p = Except.ok L) →
      compoundLoop timer e ps =
        (Except.ok ((ps.map (childSteps timer e)).flatten),
         ps.map (fun p => p.afterProvide timer e))
  | [], _ => rfl
  | p :: ps, h => by
    obtain ⟨L, hL⟩ := h p (by simp)
    have ih := compoundLoop_all_ok timer e ps (fun q hq => h q (by simp [hq]))
    rcases hp : p.provideFn p.st timer e with ⟨r, st'⟩
    simp only [childResult, hp] at hL
    subst hL
    simp [compoundLoop, hp, ih, childSteps, childResult, DynProvider.afterProvide]

/-- Loop lemma: if all children before `p` answer `Ok` and `p` signals
cutoff, the compound loop propagates exactly that cutoff; the children
before `p` and `p` itself are in their queried states, the children after
`p` are untouched. -/
theorem compoundLoop_error_at (timer : Timer ε) (e : α) (err : ε) :
    ∀ (pre : List (DynProvider ε σ α)) (p : DynProvider ε σ α) post,
      (∀ q ∈ pre, ∃ L, childResult timer e q = Except.ok L) →
      childResult timer e p = Except.error err →
      compoundLoop timer e (pre ++ p :: post) =
        (Except.error err,
         pre.map (fun q => q.afterProvide timer e) ++
           p.afterProvide timer e :: post)
  | [], p, post, _, hp => by
    rcases hq : p.provideFn p.st timer e with ⟨r, st'⟩
    simp only [childResult, hq] at hp
    subst hp
    simp [compoundLoop, hq, DynProvider.afterProvide]
  | q :: pre, p, post, hpre, hp => by
    obtain ⟨L, hL⟩ := hpre q (by simp)
    have ih := compoundLoop_error_at timer e err pre p post
      (fun r hr => hpre r (by simp [hr])) hp
    rcases hq : q.provideFn q.st timer e with ⟨r, st'⟩
    simp only [childResult, hq] at hL
    subst hL
    simp [compoundLoop, hq, ih, DynProvider.afterProvide]

/-- Loop lemma: when every child answers `Ok` with the empty list, the
fallback loop returns `Ok []` after querying every child. -/
theorem fallbackLoop_all_empty (timer : Timer ε) (e : α) :
    ∀ ps : List (DynProvider ε σ α),
      (∀ q ∈ ps, childResult timer e q = Except.ok []) →
      fallbackLoop timer e ps =
        (Except.ok [], ps.map (fun q => q.afterProvide timer e))
  | [], _ => rfl
  | p :: ps, h => by
    have hp0 := h p (by simp)
    have ih := fallbackLoop_all_empty timer e ps (fun q hq => h q (by simp [hq]))
    rcases hp : p.provideFn p.st timer e with ⟨r, st'⟩
    simp only [childResult, hp] at hp0
    subst hp0
    simp [fallbackLoop, hp, ih, DynProvider.afterProvide]

/-- Loop lemma: if all children before `p` answer `Ok []` and `p` answers
a nonempty `Ok L`, the fallback loop returns `Ok L`; children after `p`
are untouched (never queried). -/
theorem fallbackLoop_first_nonempty_at (timer : Timer ε) (e : α)
    (L : List (Step α)) (hL : L ≠ []) :
    ∀ (pre : List (DynProvider ε σ α)) (p : DynProvider ε σ α) post,
      (∀ q ∈ pre, childResult timer e q = Except.ok []) →
      childResult timer e p = Except.ok L →
      fallbackLoop timer e (pre ++ p :: post) =
        (Except.ok L,
         pre.map (fun q => q.afterProvide timer e) ++
           p.afterProvide timer e :: post)
  | [], p, post, _, hp => by
    have hLe : L.isEmpty = false := by
      cases L with
      | nil => exact absurd rfl hL
      | cons a l => rfl
    rcases hq : p.provideFn p.st timer e with ⟨r, st'⟩
    simp only [childResult, hq] at hp
    subst hp
    simp [fallbackLoop, hq, hLe, DynProvider.afterProvide]
  | q :: pre, p, post, hpre, hp => by
    have hq0 := hpre q (by simp)
    have ih := fallbackLoop_first_nonempty_at timer e L hL pre p post
      (fun r hr => hpre r (by simp [hr])) hp
    rcases hq : q.provideFn q.st timer e with ⟨r, st'⟩
    simp only [childResult, hq] at hq0
    subst hq0
    simp [fallbackLoop, hq, ih, DynProvider.afterProvide]

/-- Loop lemma: if all children before `p` answer `Ok []` and `p` signals
cutoff, the fallback loop propagates exactly that cutoff; children after
`p` are untouched. -/
theorem fallbackLoop_error_at (timer : Timer ε) (e : α) (err : ε) :
    ∀ (pre : List (DynProvider ε σ α)) (p : DynProvider ε σ α) post,
      (∀ q ∈ pre, childResult timer e q = Except.ok []) →
      childResult timer e p = Except.error err →
      fallbackLoop timer e (pre ++ p :: post) =
        (Except.error err,
         pre.map (fun q => q.afterProvide timer e) ++
           p.afterProvide timer e :: post)
  | [], p, post, _, hp => by
    rcases hq : p.provideFn p.st timer e with ⟨r, st'⟩
    simp only [childResult, hq] at hp
    subst hp
    simp [fallbackLoop, hq, DynProvider.afterProvide]
  | q :: pre, p, post, hpre, hp => by
    have hq0 := hpre q (by simp)
    have ih := fallbackLoop_error_at timer e err pre p post
      (fun r hr => hpre r (by simp [hr])) hp
    rcases hq : q.provideFn q.st timer e with ⟨r, st'⟩
    simp only [childResult, hq] at hq0
    subst hq0
    simp [fallbackLoop, hq, ih, DynProvider.afterProvide]

/-- Claim C3: when every child provider answers `Ok` (no cutoff), the
concatenation combinator returns exactly the children's lists concatenated
in registration order (duplicates and intra-list order preserved), and
every child has been queried exactly once (each is replaced by its
successor state). -/
theorem compound_concatenates (timer : Timer ε) (e : α)
    (ps : List (DynProvider ε σ α))
    (h : ∀ p ∈ ps, ∃ L, childResult timer e p = Except.ok L) :
    (CompoundProvider.new ps).provide timer e =
      (Except.ok ((ps.map (childSteps timer e)).flatten),
       CompoundProvider.new (ps.map (fun p => p.afterProvide timer e))) := by
  simp [CompoundProvider.provide, CompoundProvider.new,
    compoundLoop_all_ok timer e ps h]

/-- Witness for C3: two children returning `[natStepA]` and
`[natStepA, natStepB]` (a duplicate across lists). -/
theorem compound_concatenates_witness :
    (∀ p ∈ [listChild [natStepA], listChild [natStepA, natStepB]],
      ∃ L, childResult unitTimer 0 p = Except.ok L) ∧
    (CompoundProvider.new
        [listChild [natStepA], listChild [natStepA, natStepB]]).provide
        unitTimer 0 =
      (Except.ok
        (([listChild [natStepA], listChild [natStepA, natStepB]].map
          (childSteps unitTimer 0)).flatten),
       CompoundProvider.new
        ([listChild [natStepA], listChild [natStepA, natStepB]].map
          (fun p => p.afterProvide unitTimer 0))) := by
  have h : ∀ p ∈ [listChild [natStepA], listChild [natStepA, natStepB]],
      ∃ L, childResult unitTimer 0 p = Except.ok L := by
    intro p hp
    simp only [List.mem_cons, List.not_mem_nil, or_false] at hp
    rcases hp with rfl | rfl
    · exact ⟨[natStepA], rfl⟩
    · exact ⟨[natStepA, natStepB], rfl⟩
  exact ⟨h, compound_concatenates unitTimer 0 _ h⟩

/-- Claim C4: the fallback combinator returns the first nonempty child
result (children after it keep their state: they are never queried), and
returns the empty list when every child returns an empty list. -/
theorem fallback_returns_first_nonempty (timer : Timer ε) (e : α) :
    (∀ (pre : List (DynProvider ε σ α)) (p : DynProvider ε σ α) post
        (L : List (Step α)),
      (∀ q ∈ pre, childResult timer e q = Except.ok []) →
      childResult timer e p = Except.ok L → L ≠ [] →
      (FallbackProvider.new (pre ++ p :: post)).provide timer e =
        (Except.ok L,
         FallbackProvider.new
           (pre.map (fun q => q.afterProvide timer e) ++
             p.afterProvide timer e :: post))) ∧
    (∀ ps : List (DynProvider ε σ α),
      (∀ q ∈ ps, childResult timer e q = Except.ok []) →
      (FallbackProvider.new ps).provide timer e =
        (Except.ok [],
         FallbackProvider.new (ps.map (fun q => q.afterProvide timer e)))) := by
  constructor
  · intro pre p post L hpre hp hL
    simp [FallbackProvider.provide, FallbackProvider.new,
      fallbackLoop_first_nonempty_at timer e L hL pre p post hpre hp]
  · intro ps h
    simp [FallbackProvider.provide, FallbackProvider.new,
      fallbackLoop_all_empty timer e ps h]

/-- Witness for C4: an empty child, then a child returning `[natStepA]`,
then a cutoff child that is never reached. -/
theorem fallback_returns_first_nonempty_witness :
    (∀ q ∈ [listChild []], childResult unitTimer 0 q = Except.ok []) ∧
    childResult unitTimer 0 (listChild [natStepA]) = Except.ok [natStepA] ∧
    [natStepA] ≠ [] ∧
    (FallbackProvider.new
        ([listChild []] ++ listChild [natStepA] :: [cutoffChild])).provide
        unitTimer 0 =
      (Except.ok [natStepA],
       FallbackProvider.new
         ([listChild []].map (fun q => q.afterProvide unitTimer 0) ++
           (listChild [natStepA]).afterProvide unitTimer 0 :: [cutoffChild])) := by
  have h1 : ∀ q ∈ [listChild []], childResult unitTimer 0 q = Except.ok [] := by
    intro q hq
    simp only [List.mem_cons, List.not_mem_nil, or_false] at hq
    subst hq
    rfl
  refine ⟨h1, rfl, by simp, ?_⟩
  exact (fallback_returns_first_nonempty unitTimer 0).1
    [listChild []] (listChild [natStepA]) [cutoffChild] [natStepA] h1 rfl (by simp)

/-- Claim C5: both combinators are fail-fast. If the children queried
before `p` all answered `Ok` (for fallback: `Ok []`, since otherwise `p`
would not be reached) and `p` signals cutoff, the combined call returns
exactly that cutoff signal — no partial results — and the children after
`p` keep their state: they are never queried. -/
theorem combinators_fail_fast (timer : Timer ε) (e : α) (err : ε)
    (pre : List (DynProvider ε σ α)) (p : DynProvider ε σ α)
    (post : List (DynProvider ε σ α)) :
    ((∀ q ∈ pre, ∃ L, childResult timer e q = Except.ok L) →
      childResult timer e p = Except.error err →
      (CompoundProvider.new (pre ++ p :: post)).provide timer e =
        (Except.error err,
         CompoundProvider.new
           (pre.map (fun q => q.afterProvide timer e) ++
             p.afterProvide timer e :: post))) ∧
    ((∀ q ∈ pre, childResult timer e q = Except.ok []) →
      childResult timer e p = Except.error err →
      (FallbackProvider.new (pre ++ p :: post)).provide timer e =
        (Except.error err,
         FallbackProvider.new
           (pre.map (fun q => q.afterProvide timer e) ++
             p.afterProvide timer e :: post))) := by
  constructor
  · intro hpre hp
    simp [CompoundProvider.provide, CompoundProvider.new,
      compoundLoop_error_at timer e err pre p post hpre hp]
  · intro hpre hp
    simp [FallbackProvider.provide, FallbackProvider.new,
      fallbackLoop_error_at timer e err pre p post hpre hp]

/-- Witness for C5: a cutoff child in second position aborts both
combinators; the third child is untouched. -/
theorem combinators_fail_fast_witness :
    (∀ q ∈ [listChild [natStepA]], ∃ L, childResult unitTimer 0 q = Except.ok L) ∧
    (∀ q ∈ [listChild []], childResult unitTimer 0 q = Except.ok []) ∧
    childResult unitTimer 0 cutoffChild = Except.error () ∧
    (CompoundProvider.new
        ([listChild [natStepA]] ++ cutoffChild :: [listChild [natStepB]])).provide
        unitTimer 0 =
      (Except.error (),
       CompoundProvider.new
         ([listChild [natStepA]].map (fun q => q.afterProvide unitTimer 0) ++
           cutoffChild.afterProvide unitTimer 0 :: [listChild [natStepB]])) ∧
    (FallbackProvider.new
        ([listChild []] ++ cutoffChild :: [listChild [natStepB]])).provide
        unitTimer 0 =
      (Except.error (),
       FallbackProvider.new
         ([listChild []].map (fun q => q.afterProvide unitTimer 0) ++
           cutoffChild.afterProvide unitTimer 0 :: [listChild [natStepB]])) := by
  have h1 : ∀ q ∈ [listChild [natStepA]], ∃ L, childResult unitTimer 0 q = Except.ok L := by
    intro q hq
    simp only [List.mem_cons, List.not_mem_nil, or_false] at hq
    subst hq
    exact ⟨[natStepA], rfl⟩
  have h2 : ∀ q ∈ [listChild []], childResult unitTimer 0 q = Except.ok [] := by
    intro q hq
    simp only [List.mem_cons, List.not_mem_nil, or_false] at hq
    subst hq
    rfl
  refine ⟨h1, h2, rfl, ?_, ?_⟩
  · exact (combinators_fail_fast unitTimer 0 () [listChild [natStepA]]
      cutoffChild [listChild [natStepB]]).1 h1 rfl
  · exact (combinators_fail_fast unitTimer 0 () [listChild []]
      cutoffChild [listChild [natStepB]]).2 h2 rfl

/-- `decide` on an applicable step, in closed form: the pushed-history
controller with the new expression installed. -/
theorem decide_eq (c : Controller ε σ α) (step : Step α) (e' : α)
    (h : step.apply c.state = some e') :
    c.decide step = some { c.pushHistory with state := e' } := by
  unfold Controller.decide
  rw [h]

/-- `undo` on a nonempty enabled history, in closed form: pops the last
entry into the working expression. -/
theorem undo_eq (c : Controller ε σ α) (his : List α) (last : α)
    (hh : c.history = some his) (hl : his.getLast? = some last) :
    c.undo = some { c with state := last, history := some his.dropLast } := by
  unfold Controller.undo
  simp only [hh, hl]

/-- `can_undo` is true exactly when the history is enabled and nonempty
(true of every controller value, reachable or not). -/
theorem can_undo_iff_history (c : Controller ε σ α) :
    c.can_undo = true ↔ ∃ his, c.history = some his ∧ his ≠ [] := by
  cases hh : c.history with
  | none => simp [Controller.can_undo, hh]
  | some xs => cases xs <;> simp [Controller.can_undo, hh]

/-- Every session action preserves whether history is enabled. -/
theorem runAct_history_isSome (c c' : Controller ε σ α) (a : Act α)
    (h : c.runAct a = some c') : c'.history.isSome = c.history.isSome := by
  cases a with
  | decide step =>
    simp only [Controller.runAct, Controller.decide] at h
    split at h
    · cases h
    · injection h with h
      subst h
      cases hh : c.history <;> simp [Controller.pushHistory, hh]
  | undo =>
    simp only [Controller.runAct, Controller.undo] at h
    split at h
    · cases h
    · split at h
      · cases h
      · injection h with h
        subst h
        simp_all
  | provide =>
    simp only [Controller.runAct] at h
    injection h with h
    subst h
    rfl

/-- Every session trace preserves whether history is enabled. -/
theorem runTrace_history_isSome :
    ∀ (tr : List (Act α)) (c c' : Controller ε σ α),
      c.runTrace tr = some c' → c'.history.isSome = c.history.isSome
  | [], c, c', h => by
    simp only [Controller.runTrace] at h
    injection h with h
    subst h
    rfl
  | a :: tr, c, c', h => by
    simp only [Controller.runTrace] at h
    cases ha : c.runAct a with
    | none => rw [ha] at h; cases h
    | some c1 =>
      rw [ha] at h
      rw [runTrace_history_isSome tr c1 c' h, runAct_history_isSome c c1 a ha]

/-- Refinement of the history stack by the effective-decision list: along
any successful trace, the history stack equals the accumulated list of
pre-decision expressions of the decisions still in effect. -/
theorem runTrace_history_eff :
    ∀ (tr : List (Act α)) (c c' : Controller ε σ α) (acc : List α),
      c.history = some acc → c.runTrace tr = some c' →
      ∃ l, c.preExpsEff acc tr = some l ∧ c'.history = some l
  | [], c, c', acc, hh, h => by
    simp only [Controller.runTrace] at h
    injection h with h
    subst h
    exact ⟨acc, rfl, hh⟩
  | a :: tr, c, c', acc, hh, h => by
    simp only [Controller.runTrace] at h
    cases ha : c.runAct a with
    | none => rw [ha] at h; cases h
    | some c1 =>
      rw [ha] at h
      cases a with
      | decide step =>
        have hh1 : c1.history = some (acc ++ [c.state]) := by
          simp only [Controller.runAct, Controller.decide] at ha
          split at ha
          · cases ha
          · injection ha with ha
            subst ha
            simp [Controller.pushHistory, hh]
        obtain ⟨l, hl1, hl2⟩ := runTrace_history_eff tr c1 c' (acc ++ [c.state]) hh1 h
        exact ⟨l, by simp [Controller.preExpsEff, ha, hl1], hl2⟩
      | undo =>
        have hh1 : c1.history = some acc.dropLast := by
          simp only [Controller.runAct, Controller.undo, hh] at ha
          split at ha
          · cases ha
          · injection ha with ha
            subst ha
            rfl
        obtain ⟨l, hl1, hl2⟩ := runTrace_history_eff tr c1 c' acc.dropLast hh1 h
        exact ⟨l, by simp [Controller.preExpsEff, ha, hl1], hl2⟩
      | provide =>
        have hh1 : c1.history = some acc := by
          simp only [Controller.runAct] at ha
          injection ha with ha
          subst ha
          exact hh
        obtain ⟨l, hl1, hl2⟩ := runTrace_history_eff tr c1 c' acc hh1 h
        exact ⟨l, by simp [Controller.preExpsEff, ha, hl1], hl2⟩

/-- Claim C6: in every reachable controller state, `can_undo()` is true
iff history is enabled and nonempty; and when the controller was
constructed with `save_history = false`, `can_undo()` is false and
`undo()` panics (returns `none`) in every reachable state. -/
theorem reachable_can_undo_iff (timer : Timer ε) (prov : DynProvider ε σ α)
    (chk : ValidityChecker α) (start : α) (sh : Bool) (tr : List (Act α))
    (c : Controller ε σ α)
    (h : (Controller.new timer prov chk start sh).runTrace tr = some c) :
    (c.can_undo = true ↔ ∃ his, c.history = some his ∧ his ≠ []) ∧
    (sh = false → c.can_undo = false ∧ c.undo = none) := by
  refine ⟨can_undo_iff_history c, ?_⟩
  rintro rfl
  have hs := runTrace_history_isSome tr _ c h
  simp [Controller.new] at hs
  cases hc : c.history with
  | some xs => rw [hc] at hs; simp at hs
  | none => exact ⟨by simp [Controller.can_undo, hc], by simp [Controller.undo, hc]⟩

/-- Witness for C6: the concrete no-history integer controller with the
empty trace. -/
theorem reachable_can_undo_iff_witness :
    intControllerNoHist.runTrace [] = some intControllerNoHist ∧
    ((intControllerNoHist.can_undo = true ↔
        ∃ his, intControllerNoHist.history = some his ∧ his ≠ []) ∧
      (false = false → intControllerNoHist.can_undo = false ∧
        intControllerNoHist.undo = none)) :=
  ⟨rfl, reachable_can_undo_iff unitTimer emptyIntProvider alwaysTrueChecker
    0 false [] intControllerNoHist rfl⟩

/-- Counterexample to C7 as stated: on the trace decide-then-undo from the
concrete integer controller, one decision has been made so far with
pre-decision expression 0 (`preExpsAll` = `[0]`), yet the reachable state's
history stack is empty — it does not contain the pre-decision expression
of every decision made so far. -/
theorem history_literal_invariant_cex :
    Controller.preExpsAll intController [Act.decide addOneStep, Act.undo] =
      some [0] ∧
    Controller.runTrace intController [Act.decide addOneStep, Act.undo] =
      some intController ∧
    intController.history = some [] ∧
    (some [] : Option (List Int)) ≠ some [0] :=
  ⟨rfl, rfl, rfl, by simp⟩

/-- Claim C7 (amended): in every reachable controller state with history
enabled, the history stack contains exactly the pre-decision expressions
of the decisions made so far *and not undone* (each undo revokes the most
recent one still in effect), oldest first. -/
theorem history_matches_effective_decisions (timer : Timer ε)
    (prov : DynProvider ε σ α) (chk : ValidityChecker α) (start : α)
    (tr : List (Act α)) (c : Controller ε σ α)
    (h : (Controller.new timer prov chk start true).runTrace tr = some c) :
    ∃ l, (Controller.new timer prov chk start true).preExpsEff [] tr = some l ∧
      c.history = some l :=
  runTrace_history_eff tr _ c [] rfl h

/-- Witness for C7 (amended): the trace decide-undo-decide on the concrete
integer controller. -/
theorem history_matches_effective_decisions_witness :
    intController.runTrace
      [Act.decide addOneStep, Act.undo, Act.decide addOneStep] =
      some intCtrlAfterDecide ∧
    ∃ l, intController.preExpsEff []
        [Act.decide addOneStep, Act.undo, Act.decide addOneStep] = some l ∧
      intCtrlAfterDecide.history = some l :=
  ⟨rfl, history_matches_effective_decisions unitTimer emptyIntProvider
    alwaysTrueChecker 0 [Act.decide addOneStep, Act.undo, Act.decide addOneStep]
    intCtrlAfterDecide rfl⟩

/-- Claim C2: with history enabled, decisions and undos round-trip: after
two applicable decisions, one undo restores the expression that existed
right after the first decision, a second undo restores the initial
expression, and `can_undo()` is then false. In particular, on the concrete
integer instance (start 0, add-one step), three decides yield 3 and three
undos yield 2, 1, 0 with `can_undo()` false at the end. -/
theorem decide_undo_round_trip (timer : Timer ε) (prov : DynProvider ε σ α)
    (chk : ValidityChecker α) (E0 E1 E2 : α) (s1 s2 : Step α)
    (h1 : s1.apply E0 = some E1) (h2 : s2.apply E1 = some E2) :
    (∃ c1 c2 c1' c0',
      (Controller.new timer prov chk E0 true).decide s1 = some c1 ∧
      c1.working_expression = E1 ∧
      c1.decide s2 = some c2 ∧
      c2.working_expression = E2 ∧
      c2.undo = some c1' ∧
      c1'.working_expression = E1 ∧
      c1'.undo = some c0' ∧
      c0'.working_expression = E0 ∧
      c0'.can_undo = false) ∧
    ((intController.runTrace [Act.decide addOneStep, Act.decide addOneStep,
        Act.decide addOneStep]).map Controller.working_expression = some 3 ∧
     (intController.runTrace [Act.decide addOneStep, Act.decide addOneStep,
        Act.decide addOneStep, Act.undo]).map Controller.working_expression =
        some 2 ∧
     (intController.runTrace [Act.decide addOneStep, Act.decide addOneStep,
        Act.decide addOneStep, Act.undo, Act.undo]).map
        Controller.working_expression = some 1 ∧
     (intController.runTrace [Act.decide addOneStep, Act.decide addOneStep,
        Act.decide addOneStep, Act.undo, Act.undo, Act.undo]).map
        Controller.working_expression = some 0 ∧
     (intController.runTrace [Act.decide addOneStep, Act.decide addOneStep,
        Act.decide addOneStep, Act.undo, Act.undo, Act.undo]).map
        Controller.can_undo = some false) := by
  refine ⟨⟨_, _, _, _, decide_eq _ s1 E1 h1, rfl, decide_eq _ s2 E2 h2, rfl,
      undo_eq _ [E0, E1] E1 rfl rfl, rfl, undo_eq _ [E0] E0 rfl rfl, rfl, rfl⟩,
    rfl, rfl, rfl, rfl, rfl⟩

/-- Witness for C2: the concrete integer instance with both steps the
add-one step. -/
theorem decide_undo_round_trip_witness :
    addOneStep.apply (0 : Int) = some 1 ∧
    addOneStep.apply (1 : Int) = some 2 ∧
    ((∃ c1 c2 c1' c0',
      (Controller.new unitTimer emptyIntProvider alwaysTrueChecker (0 : Int)
        true).decide addOneStep = some c1 ∧
      c1.working_expression = 1 ∧
      c1.decide addOneStep = some c2 ∧
      c2.working_expression = 2 ∧
      c2.undo = some c1' ∧
      c1'.working_expression = 1 ∧
      c1'.undo = some c0' ∧
      c0'.working_expression = 0 ∧
      c0'.can_undo = false) ∧
    ((intController.runTrace [Act.decide addOneStep, Act.decide addOneStep,
        Act.decide addOneStep]).map Controller.working_expression = some 3 ∧
     (intController.runTrace [Act.decide addOneStep, Act.decide addOneStep,
        Act.decide addOneStep, Act.undo]).map Controller.working_expression =
        some 2 ∧
     (intController.runTrace [Act.decide addOneStep, Act.decide addOneStep,
        Act.decide addOneStep, Act.undo, Act.undo]).map
        Controller.working_expression = some 1 ∧
     (intController.runTrace [Act.decide addOneStep, Act.decide addOneStep,
        Act.decide addOneStep, Act.undo, Act.undo, Act.undo]).map
        Controller.working_expression = some 0 ∧
     (intController.runTrace [Act.decide addOneStep, Act.decide addOneStep,
        Act.decide addOneStep, Act.undo, Act.undo, Act.undo]).map
        Controller.can_undo = some false)) :=
  ⟨rfl, rfl, decide_undo_round_trip unitTimer emptyIntProvider
    alwaysTrueChecker 0 1 2 addOneStep addOneStep rfl rfl⟩

end PBN
